import Mathlib

/-!
Verification of the xLearn data-reader subsystem (`src/reader/reader.h`).

The repository ships only the header `reader.h`: class declarations, member
declarations and their documentation comments.  The method bodies
(`InmemReader::Samples`, `InmemReader::Reset`, `Reader::CheckFileFormat`,
the binary-cache helpers, …) live in a `.cc` file that is not part of the
sources, so those behaviours are modelled from the specification's words and
each such definition is marked `Modelled from the spec:` in its doc comment.
What *is* in the header — the class interfaces, the method signatures, the
constructor `InmemReader() { pos_ = 0; }`, and the documented return values
of `CheckFileFormat` — is embedded directly from the source.
-/

namespace XLearn

/-! ## Data model

`DMatrix` rows (one `Sample` per training record): a label, and per feature a
`(field, feature-index, value)` node.  Labels and feature values are 32-bit
floating-point numbers in the C++ code; the reader subsystem never computes
with them, it only moves and serializes them, so each is modelled by its
32-bit bit pattern (a `Nat` below `2^32`); field and feature indices are
`uint32` (`index_t`).
-/

/-- One `(field, index, value)` entry of a sample row. -/
structure Node where
  field_id : Nat
  feat_id : Nat
  feat_val : Nat
  deriving DecidableEq, Repr, Inhabited

/-- One training record: label bit pattern plus its list of nodes. -/
structure Sample where
  label : Nat
  nodes : List Node
  deriving DecidableEq, Repr, Inhabited

/-- The in-memory sample buffer (`DMatrix`): an ordered list of samples. -/
abbrev DMatrix := List Sample

/-- All numeric fields of a node fit in 32 bits, as in the C++ structs. -/
def Node.wf (n : Node) : Prop :=
  n.field_id < 2 ^ 32 ∧ n.feat_id < 2 ^ 32 ∧ n.feat_val < 2 ^ 32

/-- A well-formed sample: 32-bit label pattern, node count and nodes. -/
def Sample.wf (s : Sample) : Prop :=
  s.label < 2 ^ 32 ∧ s.nodes.length < 2 ^ 32 ∧ ∀ n ∈ s.nodes, n.wf

/-- A well-formed buffer: sample count fits in 32 bits and samples are wf. -/
def DMatrix.wf (m : DMatrix) : Prop :=
  m.length < 2 ^ 32 ∧ ∀ s ∈ m, s.wf

instance (n : Node) : Decidable n.wf := by
  unfold Node.wf; infer_instance

instance (s : Sample) : Decidable s.wf := by
  unfold Sample.wf; infer_instance

instance (m : DMatrix) : Decidable m.wf := by
  unfold DMatrix.wf; infer_instance

/-! ## The declared C++ interface (reader.h lines 72–186)

The public virtual entry points of the abstract `Reader` and of the two
concrete strategies, transcribed signature by signature from the header.
-/

/-- C++ parameter / return types occurring in the reader interface. -/
inductive CppType where
  | void
  | cppBool
  | cppInt
  | constStringRef
  | dmatrixPtrRef
  deriving DecidableEq, Repr

/-- A declared method signature: name, parameter types, return type. -/
structure MethodSig where
  name : String
  params : List CppType
  ret : CppType
  deriving DecidableEq, Repr

/-- Public virtual entry points of abstract `Reader` (reader.h:79-88):
`void Initialize(const std::string&, int)`, `int Samples(DMatrix*&)`,
`void Reset()`. -/
def readerInterface : List MethodSig :=
  [⟨"Initialize", [.constStringRef, .cppInt], .void⟩,
   ⟨"Samples", [.dmatrixPtrRef], .cppInt⟩,
   ⟨"Reset", [], .void⟩]

/-- Public virtual entry points of `InmemReader` (reader.h:127-134). -/
def inmemReaderInterface : List MethodSig :=
  [⟨"Initialize", [.constStringRef, .cppInt], .void⟩,
   ⟨"Samples", [.dmatrixPtrRef], .cppInt⟩,
   ⟨"Reset", [], .void⟩]

/-- Public virtual entry points of `OndiskReader` (reader.h:175-182); note
line 175 declares `virtual bool Initialize(const std::string&, int)`. -/
def ondiskReaderInterface : List MethodSig :=
  [⟨"Initialize", [.constStringRef, .cppInt], .cppBool⟩,
   ⟨"Samples", [.dmatrixPtrRef], .cppInt⟩,
   ⟨"Reset", [], .void⟩]

/-! ## Format detection (`Reader::CheckFileFormat`, reader.h:102-104)

The header documents: "Check current file format and return "libsvm" or
"libfm". Program crashes for unknow format."  The body is not in the sources.
-/

/-- Number of `:` separators inside one feature token. -/
def countColons (tok : String) : Nat :=
  tok.toList.countP (fun c => c = ':')

/-- Modelled from the spec: `Reader::CheckFileFormat` (body not in src/)
inspects the first sample line — here given as its whitespace-split tokens,
label token first — and classifies by the structural cue of the first
feature token: `field:index:value` (two colons) is field-aware, returning
"libfm" as the header comment documents; `index:value` (one colon) returns
"libsvm".  `none` models the documented fatal crash on an unknown format;
no fallback tag is ever produced. -/
def CheckFileFormat (tokens : List String) : Option String :=
  match tokens.drop 1 with
  | [] => none
  | tok :: _ =>
    if countColons tok = 2 then some "libfm"
    else if countColons tok = 1 then some "libsvm"
    else none

/-- A first line matches a supported line format: it has a feature token and
that token carries one colon (plain `index:value`) or two colons
(field-aware `field:index:value`). -/
def lineRecognized (tokens : List String) : Bool :=
  match tokens.drop 1 with
  | [] => false
  | tok :: _ => countColons tok = 1 || countColons tok = 2

/-- `Reader::CreateParser` (reader.h:107-109) forwards its argument to the
name-keyed registry `CREATE_PARSER(format_name)`; the registry itself is an
external collaborator, modelled as an association list. -/
def CreateParser (registry : List (String × α)) (format_name : String) :
    Option α :=
  (registry.find? (fun p => p.1 = format_name)).map (fun p => p.2)

/-- Format detection composed with parser creation: the tag returned by
`CheckFileFormat` is passed through unchanged as the registry lookup key. -/
def createParserForSource (registry : List (String × α))
    (tokens : List String) : Option α :=
  (CheckFileFormat tokens).bind (CreateParser registry)

/-! ## Fingerprint (`hash_value_1_`, `hash_value_2_`, reader.h:143-146)

The Fingerprint is "a pair of 64-bit hash values computed over the source
file's content and size/modification signature".  The hash routine's body is
not in src/, so it is modelled as a 64-bit polynomial rolling hash over the
source bytes, the second value additionally seeded with the file size.
-/

/-- The modulus of 64-bit hash arithmetic. -/
def W64 : Nat := 2 ^ 64

/-- One step of the rolling hash, wrapping at 64 bits. -/
def hashStep (h c : Nat) : Nat := (h * 31 + c) % W64

/-- Modelled from the spec: the 64-bit content hash behind `hash_value_1_` /
`hash_value_2_` (reader.h:143-146; the hashing routine is not in src/): a
polynomial rolling hash of the source bytes with 64-bit wraparound. -/
def polyHash (seed : Nat) (content : List Nat) : Nat :=
  content.foldl hashStep (seed % W64)

/-- Modelled from the spec: the Fingerprint of a source file — "a pair of
64-bit hash values computed over the source file's content and
size/modification signature".  The first value hashes the content; the
second hashes the content seeded with its size. -/
def fingerprint (content : List Nat) : Nat × Nat :=
  (polyHash 0 content, polyHash content.length content)

/-! ## Binary cache serialization
(`init_from_binary`, `init_from_txt`, `serialize_buffer`, `hash_binary`,
reader.h:148-158; bodies not in src/)

The cache artifact layout follows the spec: "an embedded Fingerprint header,
the sample count, and a direct binary encoding of every Sample's label,
optional field id, and (index, value) pairs".  Words are encoded
little-endian, 32-bit fields in four bytes and the two 64-bit fingerprint
halves in eight bytes each.
-/

/-- Four little-endian bytes of a 32-bit word. -/
def encodeWord32 (n : Nat) : List Nat :=
  [n % 256, n / 256 % 256, n / 65536 % 256, n / 16777216 % 256]

/-- Eight little-endian bytes of a 64-bit word. -/
def encodeWord64 (n : Nat) : List Nat :=
  encodeWord32 (n % 4294967296) ++ encodeWord32 (n / 4294967296)

/-- Read a 32-bit word from the front of a byte stream. -/
def decodeWord32 : List Nat → Option (Nat × List Nat)
  | b0 :: b1 :: b2 :: b3 :: rest =>
    some (b0 + 256 * b1 + 65536 * b2 + 16777216 * b3, rest)
  | _ => none

/-- Read a 64-bit word from the front of a byte stream. -/
def decodeWord64 (bytes : List Nat) : Option (Nat × List Nat) :=
  match decodeWord32 bytes with
  | none => none
  | some (lo, rest) =>
    match decodeWord32 rest with
    | none => none
    | some (hi, rest') => some (lo + 4294967296 * hi, rest')

/-- Direct binary encoding of one node: field id, feature index, value. -/
def encodeNode (n : Node) : List Nat :=
  encodeWord32 n.field_id ++ encodeWord32 n.feat_id ++ encodeWord32 n.feat_val

/-- Direct binary encoding of one sample: label, node count, nodes. -/
def encodeSample (s : Sample) : List Nat :=
  encodeWord32 s.label ++ encodeWord32 s.nodes.length ++
    (s.nodes.map encodeNode).flatten

/-- Modelled from the spec: `InmemReader::serialize_buffer` (reader.h:157-158,
body not in src/) writes the cache artifact beside the source: the embedded
Fingerprint header, the sample count, then every sample's direct binary
encoding. -/
def serialize_buffer (fp : Nat × Nat) (buf : DMatrix) : List Nat :=
  encodeWord64 fp.1 ++ encodeWord64 fp.2 ++ encodeWord32 buf.length ++
    (buf.map encodeSample).flatten

/-- Read `k` nodes from the front of a byte stream. -/
def decodeNodes : Nat → List Nat → Option (List Node × List Nat)
  | 0, bytes => some ([], bytes)
  | k + 1, bytes =>
    match decodeWord32 bytes with
    | none => none
    | some (f, r1) =>
      match decodeWord32 r1 with
      | none => none
      | some (i, r2) =>
        match decodeWord32 r2 with
        | none => none
        | some (v, r3) =>
          match decodeNodes k r3 with
          | none => none
          | some (ns, rest) => some (⟨f, i, v⟩ :: ns, rest)

/-- Read `k` samples from the front of a byte stream. -/
def decodeSamples : Nat → List Nat → Option (List Sample × List Nat)
  | 0, bytes => some ([], bytes)
  | k + 1, bytes =>
    match decodeWord32 bytes with
    | none => none
    | some (lab, r1) =>
      match decodeWord32 r1 with
      | none => none
      | some (cnt, r2) =>
        match decodeNodes cnt r2 with
        | none => none
        | some (ns, r3) =>
          match decodeSamples k r3 with
          | none => none
          | some (ss, rest) => some (⟨lab, ns⟩ :: ss, rest)

/-- Parse a whole cache artifact: fingerprint header, count, samples;
returns the embedded fingerprint, the buffer and the unread tail. -/
def decodeCacheFile (bytes : List Nat) :
    Option ((Nat × Nat) × DMatrix × List Nat) :=
  match decodeWord64 bytes with
  | none => none
  | some (h1, r1) =>
    match decodeWord64 r1 with
    | none => none
    | some (h2, r2) =>
      match decodeWord32 r2 with
      | none => none
      | some (cnt, r3) =>
        match decodeSamples cnt r3 with
        | none => none
        | some (buf, rest) => some ((h1, h2), buf, rest)

/-- Modelled from the spec: `InmemReader::init_from_binary` (reader.h:151-152,
body not in src/) deserializes a cache artifact directly into the in-memory
representation, bypassing text parsing; `none` models a missing or
unreadable artifact. -/
def init_from_binary (bytes : List Nat) : Option ((Nat × Nat) × DMatrix) :=
  match decodeCacheFile bytes with
  | none => none
  | some (fp, buf, _) => some (fp, buf)

/-- Modelled from the spec: `InmemReader::init_from_txt` (reader.h:154-155,
body not in src/) parses the text source line by line through the
registry-selected parser (an external collaborator, passed in as `parse`)
into the in-memory buffer. -/
def init_from_txt (parse : String → Sample) (lines : List String) : DMatrix :=
  lines.map parse

/-- Modelled from the spec: `InmemReader::hash_binary` (reader.h:148-149,
body not in src/) — the cache-validity check: the artifact co-located with
the source (`none` when missing) must parse, and its embedded fingerprint
must equal a freshly computed fingerprint of the source content; false on
any mismatch, missing file, or corrupt artifact. -/
def hash_binary (artifact : Option (List Nat)) (source : List Nat) : Bool :=
  match artifact with
  | none => false
  | some bytes =>
    match decodeCacheFile bytes with
    | none => false
    | some (fp, _, _) => fp = fingerprint source

/-! ## ShuffleIndex and the in-memory reader
(`InmemReader`, reader.h:121-162; method bodies not in src/)

The header declares the state: the preloaded buffer `data_buf_`, the cursor
`pos_` (set to 0 by the constructor `InmemReader() { pos_ = 0; }`,
reader.h:123), the shuffle order `order_`, and the batch size
`num_samples_`.  The shuffle algorithm itself is not in src/; the spec asks
for a uniform-random permutation per pass, modelled as a Fisher–Yates
shuffle driven by an arbitrary random-value stream `g`.
-/

/-- Fisher–Yates selection: at step `k` pick position `g k mod length`,
emit that element and recurse on the rest; `fuel` bounds the recursion and
equals the list length at the top-level call. -/
def shuffleAux (g : Nat → Nat) : Nat → Nat → List Nat → List Nat
  | _, 0, l => l
  | _, _ + 1, [] => []
  | k, fuel + 1, a :: t =>
    let j := g k % (a :: t).length
    (a :: t).getD j 0 :: shuffleAux g (k + 1) fuel ((a :: t).eraseIdx j)

/-- Modelled from the spec: regenerating the ShuffleIndex — a fresh
uniform shuffle of the positions, drawing random values from `g` starting
at offset `k`. -/
def shuffleIndex (g : Nat → Nat) (k : Nat) (l : List Nat) : List Nat :=
  shuffleAux g k l.length l

/-- The in-memory reader state declared at reader.h:136-146: the preloaded
buffer, the batch size (`num_samples_`, set by `Initialize`), the sampling
cursor `pos_`, the shuffle order `order_`, and the position reached in the
modelled random stream. -/
structure InmemReader where
  data_buf_ : DMatrix
  num_samples_ : Nat
  pos_ : Nat
  order_ : List Nat
  rng_step_ : Nat
  deriving DecidableEq, Repr

/-- The C++ default constructor `InmemReader() { pos_ = 0; }` (reader.h:123):
a freshly constructed reader has cursor 0 and empty containers. -/
def InmemReader.construct : InmemReader :=
  { data_buf_ := [], num_samples_ := 0, pos_ := 0, order_ := [], rng_step_ := 0 }

/-- Modelled from the spec: `InmemReader::Initialize` (reader.h:127-128, body
not in src/) materializes the dataset (via cache or text parse — `buf` is
that loaded buffer), stores the requested batch size, and builds an initial
shuffled index over the full sample count, cursor at 0. -/
def InmemReader.Initialize (g : Nat → Nat) (buf : DMatrix)
    (num_samples : Nat) : InmemReader :=
  { data_buf_ := buf, num_samples_ := num_samples, pos_ := 0,
    order_ := shuffleIndex g 0 (List.range buf.length),
    rng_step_ := buf.length }

/-- Modelled from the spec: `InmemReader::Samples` (reader.h:130-131, body
not in src/) — returns the next `num_samples_` samples in ShuffleIndex order
starting at the cursor; fewer when fewer remain; the empty batch (the
expected end-of-pass control signal, not an error) when the cursor is at or
past the end, leaving the cursor untouched. -/
def InmemReader.Samples (r : InmemReader) : InmemReader × DMatrix :=
  if r.order_.length ≤ r.pos_ then (r, [])
  else
    let n := min r.num_samples_ (r.order_.length - r.pos_)
    let batch := ((r.order_.drop r.pos_).take n).map
      (fun i => r.data_buf_.getD i default)
    ({ r with pos_ := r.pos_ + n }, batch)

/-- Modelled from the spec: `InmemReader::Reset` (reader.h:133-134, body not
in src/) — reshuffles the ShuffleIndex with fresh random draws and returns
the cursor to 0, starting a new epoch. -/
def InmemReader.Reset (g : Nat → Nat) (r : InmemReader) : InmemReader :=
  { r with pos_ := 0,
           order_ := shuffleIndex g r.rng_step_ (List.range r.data_buf_.length),
           rng_step_ := r.rng_step_ + r.data_buf_.length }

/-- The batches delivered by repeated `Samples` calls until the first empty
batch, with a fuel bound on the number of calls. -/
def passFrom : Nat → InmemReader → List DMatrix
  | 0, _ => []
  | fuel + 1, r =>
    let p := r.Samples
    if p.2 = [] then [] else p.2 :: passFrom fuel p.1

/-- One full pass: every batch returned from the given state until the first
empty batch.  `order_.length + 1` calls always suffice, since every
non-empty batch advances the cursor. -/
def fullPass (r : InmemReader) : List DMatrix :=
  passFrom (r.order_.length + 1) r

/-! ## Concrete instances used to exercise the definitions -/

/-- The identity stream, a concrete choice of random draws. -/
def gId : Nat → Nat := fun k => k

/-- A five-sample dataset (the spec's 5-line example source). -/
def bufEx5 : DMatrix :=
  [⟨10, []⟩, ⟨11, []⟩, ⟨12, []⟩, ⟨13, []⟩, ⟨14, []⟩]

/-- A four-sample dataset (batch size 2 divides it evenly). -/
def bufEx4 : DMatrix := [⟨20, []⟩, ⟨21, []⟩, ⟨22, []⟩, ⟨23, []⟩]

/-- A reader initialized with batch size 0 over a one-sample dataset. -/
def readerBatchZero : InmemReader :=
  { data_buf_ := [⟨7, [⟨1, 2, 3⟩]⟩], num_samples_ := 0, pos_ := 0,
    order_ := [], rng_step_ := 0 }

/-- A mid-training reader state over three samples, batch size 2. -/
def readerMid : InmemReader :=
  { data_buf_ := [⟨7, []⟩, ⟨8, []⟩, ⟨9, []⟩], num_samples_ := 2, pos_ := 5,
    order_ := [2, 0, 1], rng_step_ := 4 }

/-- A reader whose cursor sits exactly at the end of its shuffle index. -/
def readerAtEnd : InmemReader :=
  { data_buf_ := [⟨1, []⟩, ⟨2, []⟩], num_samples_ := 2, pos_ := 2,
    order_ := [1, 0], rng_step_ := 7 }

/-! ## Helper lemmas: ShuffleIndex is a permutation -/

theorem perm_getD_cons_eraseIdx (l : List Nat) (j : Nat) (hj : j < l.length) :
    l.Perm (l.getD j 0 :: l.eraseIdx j) := by
  have h1 : l.Perm (l[j] :: l.erase l[j]) :=
    List.perm_cons_erase (List.getElem_mem hj)
  have h2 : (l.erase l[j]).Perm (l.eraseIdx j) := List.erase_getElem hj
  have h3 : l.getD j 0 = l[j] := List.getD_eq_getElem l 0 hj
  rw [h3]
  exact h1.trans (h2.cons l[j])

theorem shuffleAux_perm (g : Nat → Nat) :
    ∀ (fuel k : Nat) (l : List Nat), (shuffleAux g k fuel l).Perm l := by
  intro fuel
  induction fuel with
  | zero => intro k l; rw [shuffleAux]
  | succ n ih =>
    intro k l
    match l with
    | [] => rw [shuffleAux]
    | a :: t =>
      rw [shuffleAux]
      have hj : g k % (a :: t).length < (a :: t).length :=
        Nat.mod_lt _ (by simp)
      exact ((ih (k + 1) ((a :: t).eraseIdx (g k % (a :: t).length))).cons
        _).trans (perm_getD_cons_eraseIdx _ _ hj).symm

theorem shuffleIndex_perm (g : Nat → Nat) (k : Nat) (l : List Nat) :
    (shuffleIndex g k l).Perm l :=
  shuffleAux_perm g l.length k l

theorem shuffleIndex_length (g : Nat → Nat) (k : Nat) (l : List Nat) :
    (shuffleIndex g k l).length = l.length :=
  (shuffleIndex_perm g k l).length_eq

/-! ## Helper lemmas: the sampling pass -/

theorem Samples_at_end (r : InmemReader) (h : r.order_.length ≤ r.pos_) :
    r.Samples = (r, []) := by
  simp [InmemReader.Samples, h]

theorem Samples_mid (r : InmemReader) (h : r.pos_ < r.order_.length) :
    r.Samples =
      ({ r with pos_ :=
          r.pos_ + min r.num_samples_ (r.order_.length - r.pos_) },
       ((r.order_.drop r.pos_).take
          (min r.num_samples_ (r.order_.length - r.pos_))).map
         (fun i => r.data_buf_.getD i default)) := by
  simp [InmemReader.Samples, Nat.not_le.mpr h]

theorem Samples_mid_batch_ne_nil (r : InmemReader) (h : r.pos_ < r.order_.length)
    (hB : 1 ≤ r.num_samples_) : (r.Samples).2 ≠ [] := by
  rw [Samples_mid r h]
  intro hcon
  have hlen := congrArg List.length hcon
  simp [List.length_take, List.length_drop] at hlen
  omega

theorem passFrom_flatten (fuel : Nat) :
    ∀ r : InmemReader, 1 ≤ r.num_samples_ →
    r.order_.length - r.pos_ < fuel →
    (passFrom fuel r).flatten =
      (r.order_.drop r.pos_).map (fun i => r.data_buf_.getD i default) := by
  induction fuel with
  | zero => intro r _ h2; omega
  | succ n ih =>
    intro r hB h2
    rw [passFrom]
    by_cases hend : r.order_.length ≤ r.pos_
    · rw [Samples_at_end r hend]
      simp [List.drop_eq_nil_of_le hend]
    · push_neg at hend
      have hne := Samples_mid_batch_ne_nil r hend hB
      simp only [hne, if_neg, ite_false]
      rw [Samples_mid r hend]
      simp only [List.flatten_cons]
      rw [ih _ (by simpa using hB) (by simp; omega)]
      simp only []
      rw [← List.map_append]
      congr 1
      exact List.drop_take_append_drop r.order_ r.pos_ _

theorem passFrom_sizes (fuel : Nat) :
    ∀ r : InmemReader, 1 ≤ r.num_samples_ →
    r.order_.length - r.pos_ < fuel →
    (passFrom fuel r).map List.length =
      List.replicate ((r.order_.length - r.pos_) / r.num_samples_)
        r.num_samples_ ++
      (if (r.order_.length - r.pos_) % r.num_samples_ = 0 then []
       else [(r.order_.length - r.pos_) % r.num_samples_]) := by
  induction fuel with
  | zero => intro r _ h2; omega
  | succ n ih =>
    intro r hB h2
    rw [passFrom]
    by_cases hend : r.order_.length ≤ r.pos_
    · rw [Samples_at_end r hend]
      have hm : r.order_.length - r.pos_ = 0 := by omega
      simp [hm]
    · push_neg at hend
      have hne := Samples_mid_batch_ne_nil r hend hB
      simp only [hne, if_neg, ite_false]
      rw [Samples_mid r hend]
      simp only [List.map_cons]
      rw [ih _ (by simpa using hB) (by simp; omega)]
      simp only [List.length_map, List.length_take, List.length_drop]
      set B := r.num_samples_ with hBdef
      set m := r.order_.length - r.pos_ with hmdef
      have hm1 : 1 ≤ m := by omega
      have hmin : min (min B m) m = min B m := by omega
      have harith : r.order_.length - (r.pos_ + min B m) = m - min B m := by
        omega
      rw [hmin, harith]
      by_cases hcase : B ≤ m
      · have hminB : min B m = B := by omega
        rw [hminB]
        have hrw : m = (m - B) + B := by omega
        rw [hrw]
        rw [Nat.add_div_right _ (by omega), Nat.add_mod_right,
          Nat.add_sub_cancel]
        simp [List.replicate_succ]
      · push_neg at hcase
        have hminB : min B m = m := by omega
        have hm0 : m ≠ 0 := by omega
        rw [hminB, Nat.sub_self]
        rw [Nat.div_eq_of_lt hcase, Nat.mod_eq_of_lt hcase]
        simp [hm0]

theorem map_getD_range (l : DMatrix) :
    (List.range l.length).map (fun i => l.getD i default) = l := by
  apply List.ext_getElem
  · simp
  · intro i h1 h2
    simp only [List.getElem_map, List.getElem_range]
    exact List.getD_eq_getElem l default h2

theorem fullPass_flatten (r : InmemReader) (hB : 1 ≤ r.num_samples_)
    (h0 : r.pos_ = 0) :
    (fullPass r).flatten =
      r.order_.map (fun i => r.data_buf_.getD i default) := by
  rw [fullPass, passFrom_flatten _ r hB (by omega), h0, List.drop_zero]

theorem reset_pass_perm (g : Nat → Nat) (r : InmemReader)
    (hB : 1 ≤ r.num_samples_) :
    (fullPass (r.Reset g)).flatten.Perm r.data_buf_ := by
  have hperm : (r.Reset g).order_.Perm (List.range r.data_buf_.length) :=
    shuffleIndex_perm g r.rng_step_ _
  have h1 : (fullPass (r.Reset g)).flatten =
      (r.Reset g).order_.map (fun i => (r.Reset g).data_buf_.getD i default) :=
    fullPass_flatten _ (by simpa [InmemReader.Reset] using hB) (by rfl)
  rw [h1]
  have hbuf : (r.Reset g).data_buf_ = r.data_buf_ := rfl
  rw [hbuf]
  have h2 := hperm.map (fun i => r.data_buf_.getD i default)
  rw [map_getD_range r.data_buf_] at h2
  exact h2

/-! ## Claim theorems -/

/-- Claim C1, amended to batch sizes at least 1: for every dataset, every
random stream and every batch size `≥ 1`, the shuffle order built by
`Reset` is a permutation of `[0, N)` over the `N` loaded samples, and the
samples returned across one full pass — from `Reset` until the first empty
batch — are exactly the full dataset, each sample exactly once. -/
theorem claim_C1 (g : Nat → Nat) (r : InmemReader)
    (hB : 1 ≤ r.num_samples_) :
    (r.Reset g).order_.Perm (List.range r.data_buf_.length) ∧
    (fullPass (r.Reset g)).flatten.Perm r.data_buf_ :=
  ⟨shuffleIndex_perm g r.rng_step_ _, reset_pass_perm g r hB⟩

/-- Witness for C1: a concrete three-sample reader with batch size 2. -/
theorem claim_C1_witness :
    (readerMid.Reset gId).order_.Perm
      (List.range readerMid.data_buf_.length) ∧
    (fullPass (readerMid.Reset gId)).flatten.Perm readerMid.data_buf_ :=
  claim_C1 gId readerMid (by decide)

/-- Counterexample to C1 as stated ("every batch_size"): with batch size 0
over a one-sample dataset, `Samples` returns the empty batch immediately,
so the full pass delivers nothing and misses the sample. -/
theorem claim_C1_counterexample :
    ¬ ((fullPass (readerBatchZero.Reset gId)).flatten.Perm
        readerBatchZero.data_buf_) := by decide

/-- Claim C2 (code bug located): `InmemReader` declares exactly the three
abstract `Reader` entry points with identical signatures, and `OndiskReader`
declares the same three names with the same parameter lists, but
`OndiskReader::Initialize` (reader.h:175) is declared returning `bool` where
the abstract `Reader::Initialize` (reader.h:79) returns `void`, so the two
strategies do not implement the interface with identical signatures. -/
theorem claim_C2 :
    inmemReaderInterface = readerInterface ∧
    ondiskReaderInterface ≠ readerInterface ∧
    ondiskReaderInterface.map MethodSig.name =
      readerInterface.map MethodSig.name ∧
    ondiskReaderInterface.map MethodSig.params =
      readerInterface.map MethodSig.params ∧
    ondiskReaderInterface.map MethodSig.ret ≠
      readerInterface.map MethodSig.ret := by decide

/-- Claim C4: with the cursor at or past the end of the shuffle index,
`Samples` returns the empty batch (the end-of-pass control signal) and
leaves the whole state — in particular the cursor — unchanged; it never
wraps around on its own. -/
theorem claim_C4 (r : InmemReader) (h : r.order_.length ≤ r.pos_) :
    r.Samples = (r, []) :=
  Samples_at_end r h

/-- Witness for C4: a concrete reader whose cursor sits at the end. -/
theorem claim_C4_witness : readerAtEnd.Samples = (readerAtEnd, []) :=
  claim_C4 readerAtEnd (by decide)

/-- Claim C5, amended: for batch sizes `B ≥ 1`, every non-final `Samples`
call returns exactly `B` samples and the final non-empty call returns
`N mod B` samples when `B` does not divide `N` (no padding) and `B` samples
otherwise; in particular a 5-sample source with batch size 2 yields batches
of sizes 2, 2, 1 and an empty batch on the 4th call. -/
theorem claim_C5 :
    (∀ (g : Nat → Nat) (buf : DMatrix) (B : Nat), 1 ≤ B →
      (fullPass (InmemReader.Initialize g buf B)).map List.length =
        List.replicate (buf.length / B) B ++
        (if buf.length % B = 0 then [] else [buf.length % B])) ∧
    (fullPass (InmemReader.Initialize gId bufEx5 2)).map List.length =
      [2, 2, 1] ∧
    ((((InmemReader.Initialize gId bufEx5 2).Samples.1).Samples.1).Samples.1).Samples.2
      = [] := by
  refine ⟨?_, by decide, by decide⟩
  intro g buf B hB
  rw [fullPass, passFrom_sizes _ _ hB (by omega)]
  simp [InmemReader.Initialize, shuffleIndex_length]

/-- Witness for C5: four samples with batch size 3 give batches 3 and 1. -/
theorem claim_C5_witness :
    (fullPass (InmemReader.Initialize gId bufEx4 3)).map List.length =
      List.replicate (bufEx4.length / 3) 3 ++
      (if bufEx4.length % 3 = 0 then [] else [bufEx4.length % 3]) :=
  claim_C5.1 gId bufEx4 3 (by decide)

/-- Counterexample to C5 as stated: when the batch size divides the dataset
— 4 samples, batch size 2 — the final non-empty call returns 2 samples,
not `N mod B = 4 mod 2 = 0` of them. -/
theorem claim_C5_counterexample :
    ((fullPass (InmemReader.Initialize gId bufEx4 2)).map
      List.length).getLast? = some 2 ∧
    ¬ (((fullPass (InmemReader.Initialize gId bufEx4 2)).map
      List.length).getLast? = some (4 % 2)) := by decide

/-- Claim C6: the cursor is 0 immediately after construction
(`InmemReader() { pos_ = 0; }`, reader.h:123); `Reset` sets the cursor to 0
and regenerates the ShuffleIndex as a fresh permutation of `[0, N)`; and
after `Reset` the next full pass again satisfies the exactly-once
permutation property (for batch sizes at least 1, as that property
requires). -/
theorem claim_C6 :
    InmemReader.construct.pos_ = 0 ∧
    (∀ (g : Nat → Nat) (r : InmemReader), (r.Reset g).pos_ = 0) ∧
    (∀ (g : Nat → Nat) (r : InmemReader),
      (r.Reset g).order_.Perm (List.range r.data_buf_.length)) ∧
    (∀ (g : Nat → Nat) (r : InmemReader), 1 ≤ r.num_samples_ →
      (fullPass (r.Reset g)).flatten.Perm r.data_buf_) :=
  ⟨rfl, fun _ _ => rfl, fun g r => shuffleIndex_perm g r.rng_step_ _,
   fun g r hB => reset_pass_perm g r hB⟩

/-- Witness for C6: a fresh pass after `Reset` on a concrete two-sample
reader with batch size 2 delivers the dataset exactly once. -/
theorem claim_C6_witness :
    (fullPass (readerAtEnd.Reset gId)).flatten.Perm readerAtEnd.data_buf_ :=
  claim_C6.2.2.2 gId readerAtEnd (by decide)

/-- Claim C9: format detection fails fatally — modelled by `none`, with no
fallback tag and no recoverable error value — exactly on sources whose
first sample line matches no supported line format; and on recognized
sources the returned tag is the exact key handed to the parser-registry
lookup. -/
theorem claim_C9 :
    (∀ tokens : List String,
      CheckFileFormat tokens = none ↔ lineRecognized tokens = false) ∧
    (∀ (tokens : List String) (t : String), CheckFileFormat tokens = some t →
      ∀ (α : Type) (registry : List (String × α)),
        createParserForSource registry tokens = CreateParser registry t) := by
  constructor
  · intro tokens
    unfold CheckFileFormat lineRecognized
    match tokens.drop 1 with
    | [] => simp
    | tok :: rest =>
      by_cases h2 : countColons tok = 2
      · simp [h2]
      · by_cases h1 : countColons tok = 1 <;> simp [h1, h2]
  · intro tokens t h α registry
    unfold createParserForSource
    rw [h]
    rfl

/-- Witness for C9: a recognized libsvm-style line is looked up in the
registry under exactly the returned tag. -/
theorem claim_C9_witness :
    createParserForSource [("libsvm", 0), ("libffm", 1)] ["1", "0:0.5"] =
      CreateParser [("libsvm", 0), ("libffm", 1)] "libsvm" :=
  claim_C9.2 ["1", "0:0.5"] "libsvm" (by decide) Nat _

/-- Claim C10: whenever format detection returns at all, the tag is exactly
"libsvm" or "libfm" — never any other string, in particular never the
"libffm" the reader's documentation (reader.h:69-71) advertises. -/
theorem claim_C10 :
    (∀ (tokens : List String) (t : String),
      CheckFileFormat tokens = some t → t = "libsvm" ∨ t = "libfm") ∧
    (∀ tokens : List String, CheckFileFormat tokens ≠ some "libffm") := by
  have key : ∀ (tokens : List String) (t : String),
      CheckFileFormat tokens = some t → t = "libsvm" ∨ t = "libfm" := by
    intro tokens t h
    unfold CheckFileFormat at h
    match hd : tokens.drop 1 with
    | [] => rw [hd] at h; exact absurd h (by simp)
    | tok :: rest =>
      rw [hd] at h
      by_cases h2 : countColons tok = 2
      · simp [h2] at h
        exact Or.inr h.symm
      · by_cases h1 : countColons tok = 1
        · simp [h1, h2] at h
          exact Or.inl h.symm
        · simp [h1, h2] at h
  refine ⟨key, fun tokens hcon => ?_⟩
  rcases key tokens "libffm" hcon with h | h <;> exact absurd h (by decide)

/-- Witness for C10: a field-aware line yields the tag "libfm". -/
theorem claim_C10_witness : ("libfm" : String) = "libsvm" ∨ ("libfm" : String) = "libfm" :=
  claim_C10.1 ["1", "2:3:4.5"] "libfm" (by decide)

/-! ## Helper lemmas: the fingerprint hash -/

theorem foldl_hashStep_lt (l : List Nat) :
    ∀ h : Nat, h < W64 → l.foldl hashStep h < W64 := by
  induction l with
  | nil => intro h hh; simpa using hh
  | cons c t ih =>
    intro h hh
    rw [List.foldl_cons]
    exact ih _ (Nat.mod_lt _ (by unfold W64; positivity))

theorem polyHash_lt (seed : Nat) (content : List Nat) :
    polyHash seed content < W64 :=
  foldl_hashStep_lt content _ (Nat.mod_lt _ (by unfold W64; positivity))

theorem cast_foldl_hashStep (l : List Nat) :
    ∀ h : Nat, ((l.foldl hashStep h : Nat) : ZMod W64) =
      l.foldl (fun (a : ZMod W64) (c : Nat) => a * 31 + (c : ZMod W64)) (h : ZMod W64) := by
  induction l with
  | nil => intro h; rfl
  | cons c t ih =>
    intro h
    rw [List.foldl_cons, List.foldl_cons, ih]
    congr 1
    rw [hashStep, ZMod.natCast_mod]
    push_cast
    ring

theorem foldl_hash_sub (l : List Nat) :
    ∀ h1 h2 : ZMod W64,
      l.foldl (fun (a : ZMod W64) (c : Nat) => a * 31 + (c : ZMod W64)) h1 -
        l.foldl (fun (a : ZMod W64) (c : Nat) => a * 31 + (c : ZMod W64)) h2 =
      (h1 - h2) * 31 ^ l.length := by
  induction l with
  | nil => intro h1 h2; simp
  | cons c t ih =>
    intro h1 h2
    rw [List.foldl_cons, List.foldl_cons, ih, List.length_cons]
    ring

theorem isUnit_31_pow (k : Nat) : IsUnit ((31 : ZMod W64) ^ k) := by
  apply IsUnit.pow
  have hco : Nat.Coprime 31 W64 :=
    Nat.Coprime.pow_right 64 (by decide)
  have h := (ZMod.isUnit_iff_coprime 31 W64).mpr hco
  simpa using h

theorem natCast_zmodW64_inj (a b : Nat) (ha : a < W64) (hb : b < W64)
    (h : (a : ZMod W64) = b) : a = b := by
  have h1 := congrArg ZMod.val h
  rwa [ZMod.val_cast_of_lt ha, ZMod.val_cast_of_lt hb] at h1

theorem polyHash_set_ne (seed : Nat) (l : List Nat) (i b : Nat)
    (hi : i < l.length) (hb : b < 256) (hByte : l.getD i 0 < 256)
    (hne : b ≠ l.getD i 0) :
    polyHash seed (l.set i b) ≠ polyHash seed l := by
  intro hcon
  have hgetD : l.getD i 0 = l[i] := List.getD_eq_getElem l 0 hi
  have hsplit : l = l.take i ++ l[i] :: l.drop (i + 1) := by
    conv_lhs => rw [← List.take_append_drop i l]
    rw [List.drop_eq_getElem_cons hi]
  have hset : l.set i b = l.take i ++ b :: l.drop (i + 1) :=
    List.set_eq_take_cons_drop b hi
  have hcast : ((polyHash seed (l.set i b) : Nat) : ZMod W64) =
      ((polyHash seed l : Nat) : ZMod W64) := by rw [hcon]
  rw [polyHash, polyHash, hset] at hcast
  conv_rhs at hcast => rw [hsplit]
  rw [cast_foldl_hashStep, cast_foldl_hashStep, List.foldl_append,
    List.foldl_append, List.foldl_cons, List.foldl_cons] at hcast
  have hzero := sub_eq_zero_of_eq hcast
  rw [foldl_hash_sub] at hzero
  have hdiff :
      ((b : ZMod W64) - (l[i] : ZMod W64)) * 31 ^ (l.drop (i + 1)).length
        = 0 := by
    rw [← hzero]; ring
  rw [(isUnit_31_pow _).mul_left_eq_zero, sub_eq_zero] at hdiff
  have h256W : (256 : Nat) < W64 := by unfold W64; decide
  exact hne (by
    rw [hgetD]
    exact natCast_zmodW64_inj b l[i] (by omega) (by omega) hdiff)

/-- Claim C7: the fingerprint is a pair of 64-bit values and a deterministic
function of the source content (byte-identical sources give identical
fingerprints), and mutating a single byte of the source — replacing the
byte at a valid position with a different byte value — changes the
fingerprint. -/
theorem claim_C7 :
    (∀ c1 c2 : List Nat, c1 = c2 → fingerprint c1 = fingerprint c2) ∧
    (∀ c : List Nat, (fingerprint c).1 < 2 ^ 64 ∧ (fingerprint c).2 < 2 ^ 64) ∧
    (∀ (l : List Nat) (i b : Nat), i < l.length → b < 256 →
      (∀ x ∈ l, x < 256) → b ≠ l.getD i 0 →
      fingerprint (l.set i b) ≠ fingerprint l) := by
  refine ⟨fun c1 c2 h => by rw [h], fun c => ⟨polyHash_lt 0 c, polyHash_lt _ c⟩,
    ?_⟩
  intro l i b hi hb hbytes hne hcon
  have hByte : l.getD i 0 < 256 := by
    rw [List.getD_eq_getElem l 0 hi]
    exact hbytes _ (List.getElem_mem hi)
  exact polyHash_set_ne 0 l i b hi hb hByte hne (congrArg Prod.fst hcon)

/-- Witness for C7: flipping the middle byte of a three-byte source changes
its fingerprint. -/
theorem claim_C7_witness :
    fingerprint ([1, 2, 3].set 1 7) ≠ fingerprint [1, 2, 3] :=
  claim_C7.2.2 [1, 2, 3] 1 7 (by decide) (by decide) (by decide) (by decide)

/-! ## Helper lemmas: cache serialization round trip -/

theorem decodeWord32_encode (n : Nat) (rest : List Nat) (h : n < 2 ^ 32) :
    decodeWord32 (encodeWord32 n ++ rest) = some (n, rest) := by
  simp only [encodeWord32, List.cons_append, List.nil_append, decodeWord32,
    Option.some.injEq, Prod.mk.injEq]
  exact ⟨by omega, trivial⟩

theorem decodeWord64_encode (n : Nat) (rest : List Nat) (h : n < 2 ^ 64) :
    decodeWord64 (encodeWord64 n ++ rest) = some (n, rest) := by
  rw [encodeWord64, List.append_assoc, decodeWord64,
    decodeWord32_encode _ _ (by omega : n % 4294967296 < 2 ^ 32)]
  simp only [decodeWord32_encode _ _ (by omega : n / 4294967296 < 2 ^ 32),
    Option.some.injEq, Prod.mk.injEq]
  exact ⟨by omega, trivial⟩

theorem decodeNodes_encode (ns : List Node) :
    ∀ rest : List Nat, (∀ n ∈ ns, n.wf) →
    decodeNodes ns.length ((ns.map encodeNode).flatten ++ rest) =
      some (ns, rest) := by
  induction ns with
  | nil => intro rest _; rfl
  | cons n t ih =>
    intro rest hwf
    obtain ⟨h1, h2, h3⟩ := hwf n (by simp)
    simp only [List.map_cons, List.flatten_cons, List.length_cons, encodeNode,
      List.append_assoc]
    rw [decodeNodes]
    simp only [decodeWord32_encode _ _ h1, decodeWord32_encode _ _ h2,
      decodeWord32_encode _ _ h3, ih rest (fun x hx => hwf x (by simp [hx]))]

theorem decodeSamples_encode (ss : List Sample) :
    ∀ rest : List Nat, (∀ s ∈ ss, s.wf) →
    decodeSamples ss.length ((ss.map encodeSample).flatten ++ rest) =
      some (ss, rest) := by
  induction ss with
  | nil => intro rest _; rfl
  | cons s t ih =>
    intro rest hwf
    obtain ⟨h1, h2, h3⟩ := hwf s (by simp)
    simp only [List.map_cons, List.flatten_cons, List.length_cons,
      encodeSample, List.append_assoc]
    rw [decodeSamples]
    simp only [decodeWord32_encode _ _ h1, decodeWord32_encode _ _ h2,
      decodeNodes_encode s.nodes _ h3,
      ih rest (fun x hx => hwf x (by simp [hx]))]

theorem decodeCacheFile_serialize (fp : Nat × Nat) (buf : DMatrix)
    (h1 : fp.1 < 2 ^ 64) (h2 : fp.2 < 2 ^ 64) (hwf : buf.wf) :
    decodeCacheFile (serialize_buffer fp buf) = some (fp, buf, []) := by
  obtain ⟨hlen, hall⟩ := hwf
  have hs := decodeSamples_encode buf [] hall
  rw [List.append_nil] at hs
  rw [serialize_buffer, List.append_assoc, List.append_assoc,
    decodeCacheFile, decodeWord64_encode _ _ h1]
  simp only [decodeWord64_encode _ _ h2, decodeWord32_encode _ _ hlen, hs]

/-! ## Helper lemmas: decoding extends to longer inputs -/

theorem decodeWord32_extend (t r : List Nat) (v : Nat) (rest : List Nat)
    (h : decodeWord32 t = some (v, rest)) :
    decodeWord32 (t ++ r) = some (v, rest ++ r) := by
  match t with
  | b0 :: b1 :: b2 :: b3 :: tl =>
    simp only [decodeWord32, Option.some.injEq, Prod.mk.injEq] at h
    simp only [List.cons_append, decodeWord32, Option.some.injEq,
      Prod.mk.injEq]
    exact ⟨h.1, by rw [h.2]⟩
  | [] | [_] | [_, _] | [_, _, _] => simp [decodeWord32] at h

theorem decodeWord64_extend (t r : List Nat) (v : Nat) (rest : List Nat)
    (h : decodeWord64 t = some (v, rest)) :
    decodeWord64 (t ++ r) = some (v, rest ++ r) := by
  rw [decodeWord64] at h
  match h32 : decodeWord32 t with
  | none => simp [h32] at h
  | some (lo, r1) =>
    simp only [h32] at h
    match h32b : decodeWord32 r1 with
    | none => simp [h32b] at h
    | some (hi, r2) =>
      simp only [h32b, Option.some.injEq, Prod.mk.injEq] at h
      rw [decodeWord64]
      simp only [decodeWord32_extend t r lo r1 h32,
        decodeWord32_extend r1 r hi r2 h32b, Option.some.injEq,
        Prod.mk.injEq]
      exact ⟨h.1, by rw [h.2]⟩

theorem decodeNodes_extend (k : Nat) :
    ∀ (t r : List Nat) (v : List Node) (rest : List Nat),
    decodeNodes k t = some (v, rest) →
    decodeNodes k (t ++ r) = some (v, rest ++ r) := by
  induction k with
  | zero =>
    intro t r v rest h
    rw [decodeNodes] at h
    simp only [Option.some.injEq, Prod.mk.injEq] at h
    rw [decodeNodes]
    simp only [Option.some.injEq, Prod.mk.injEq]
    exact ⟨h.1, by rw [h.2]⟩
  | succ n ih =>
    intro t r v rest h
    rw [decodeNodes] at h
    match hf : decodeWord32 t with
    | none => simp [hf] at h
    | some (f, r1) =>
      simp only [hf] at h
      match hi2 : decodeWord32 r1 with
      | none => simp [hi2] at h
      | some (i, r2) =>
        simp only [hi2] at h
        match hv : decodeWord32 r2 with
        | none => simp [hv] at h
        | some (w, r3) =>
          simp only [hv] at h
          match hns : decodeNodes n r3 with
          | none => simp [hns] at h
          | some (ns, r4) =>
            simp only [hns, Option.some.injEq, Prod.mk.injEq] at h
            rw [decodeNodes]
            simp only [decodeWord32_extend t r f r1 hf,
              decodeWord32_extend r1 r i r2 hi2,
              decodeWord32_extend r2 r w r3 hv, ih r3 r ns r4 hns,
              Option.some.injEq, Prod.mk.injEq]
            exact ⟨by rw [← h.1], by rw [h.2]⟩

theorem decodeSamples_extend (k : Nat) :
    ∀ (t r : List Nat) (v : List Sample) (rest : List Nat),
    decodeSamples k t = some (v, rest) →
    decodeSamples k (t ++ r) = some (v, rest ++ r) := by
  induction k with
  | zero =>
    intro t r v rest h
    rw [decodeSamples] at h
    simp only [Option.some.injEq, Prod.mk.injEq] at h
    rw [decodeSamples]
    simp only [Option.some.injEq, Prod.mk.injEq]
    exact ⟨h.1, by rw [h.2]⟩
  | succ n ih =>
    intro t r v rest h
    rw [decodeSamples] at h
    match hl : decodeWord32 t with
    | none => simp [hl] at h
    | some (lab, r1) =>
      simp only [hl] at h
      match hc : decodeWord32 r1 with
      | none => simp [hc] at h
      | some (cnt, r2) =>
        simp only [hc] at h
        match hns : decodeNodes cnt r2 with
        | none => simp [hns] at h
        | some (ns, r3) =>
          simp only [hns] at h
          match hss : decodeSamples n r3 with
          | none => simp [hss] at h
          | some (ss, r4) =>
            simp only [hss, Option.some.injEq, Prod.mk.injEq] at h
            rw [decodeSamples]
            simp only [decodeWord32_extend t r lab r1 hl,
              decodeWord32_extend r1 r cnt r2 hc,
              decodeNodes_extend cnt r2 r ns r3 hns, ih r3 r ss r4 hss,
              Option.some.injEq, Prod.mk.injEq]
            exact ⟨by rw [← h.1], by rw [h.2]⟩

theorem decodeCacheFile_extend (t r : List Nat) (fp : Nat × Nat)
    (buf : DMatrix) (rest : List Nat)
    (h : decodeCacheFile t = some (fp, buf, rest)) :
    decodeCacheFile (t ++ r) = some (fp, buf, rest ++ r) := by
  rw [decodeCacheFile] at h
  match h1 : decodeWord64 t with
  | none => simp [h1] at h
  | some (a1, r1) =>
    simp only [h1] at h
    match h2 : decodeWord64 r1 with
    | none => simp [h2] at h
    | some (a2, r2) =>
      simp only [h2] at h
      match h3 : decodeWord32 r2 with
      | none => simp [h3] at h
      | some (cnt, r3) =>
        simp only [h3] at h
        match h4 : decodeSamples cnt r3 with
        | none => simp [h4] at h
        | some (ss, r4) =>
          simp only [h4, Option.some.injEq, Prod.mk.injEq] at h
          rw [decodeCacheFile]
          simp only [decodeWord64_extend t r a1 r1 h1,
            decodeWord64_extend r1 r a2 r2 h2,
            decodeWord32_extend r2 r cnt r3 h3,
            decodeSamples_extend cnt r3 r ss r4 h4,
            Option.some.injEq, Prod.mk.injEq]
          exact ⟨by rw [← h.1], by rw [← h.2.1], by rw [h.2.2]⟩

theorem decodeCacheFile_truncated (fp : Nat × Nat) (buf : DMatrix) (k : Nat)
    (h1 : fp.1 < 2 ^ 64) (h2 : fp.2 < 2 ^ 64) (hwf : buf.wf)
    (hk : k < (serialize_buffer fp buf).length) :
    decodeCacheFile ((serialize_buffer fp buf).take k) = none := by
  match hdec : decodeCacheFile ((serialize_buffer fp buf).take k) with
  | none => rfl
  | some (fp2, buf2, rest2) =>
    exfalso
    have hext := decodeCacheFile_extend _ ((serialize_buffer fp buf).drop k)
      fp2 buf2 rest2 hdec
    rw [List.take_append_drop] at hext
    rw [decodeCacheFile_serialize fp buf h1 h2 hwf] at hext
    simp only [Option.some.injEq, Prod.mk.injEq] at hext
    have hnil : rest2 ++ (serialize_buffer fp buf).drop k = [] := hext.2.2.symm
    have hdrop : (serialize_buffer fp buf).drop k = [] :=
      (List.append_eq_nil.mp hnil).2
    have := List.drop_eq_nil_iff.mp hdrop
    omega

/-- Claim C3: loading a dataset through the binary cache yields a
SampleBuffer sample-for-sample identical to the one obtained by parsing the
same source as text: serializing the text-parsed buffer under any 64-bit
fingerprint and deserializing it recovers exactly that buffer, so the cache
path changes no loaded data. -/
theorem claim_C3 (parse : String → Sample) (lines : List String)
    (fp : Nat × Nat) (h1 : fp.1 < 2 ^ 64) (h2 : fp.2 < 2 ^ 64)
    (hwf : (init_from_txt parse lines).wf) :
    init_from_binary (serialize_buffer fp (init_from_txt parse lines)) =
      some (fp, init_from_txt parse lines) := by
  simp only [init_from_binary, decodeCacheFile_serialize fp _ h1 h2 hwf]

/-- Witness for C3: a two-line source parsed by a concrete parser survives
the cache round trip unchanged. -/
theorem claim_C3_witness :
    init_from_binary (serialize_buffer (3, 4)
        (init_from_txt (fun _ => ⟨5, [⟨1, 2, 3⟩]⟩) ["a", "b"])) =
      some ((3, 4), init_from_txt (fun _ => ⟨5, [⟨1, 2, 3⟩]⟩) ["a", "b"]) :=
  claim_C3 (fun _ => ⟨5, [⟨1, 2, 3⟩]⟩) ["a", "b"] (3, 4) (by decide)
    (by decide) (by decide)

/-- Claim C8: the cache-validity check accepts the artifact written by
`serialize_buffer` for the same source content, and rejects a missing
artifact, a corrupt (unparseable) artifact, an artifact whose embedded
fingerprint mismatches the freshly computed one, and any truncation of a
valid artifact. -/
theorem claim_C8 :
    (∀ (source : List Nat) (buf : DMatrix), buf.wf →
      hash_binary (some (serialize_buffer (fingerprint source) buf)) source
        = true) ∧
    (∀ source : List Nat, hash_binary none source = false) ∧
    (∀ source bytes : List Nat, decodeCacheFile bytes = none →
      hash_binary (some bytes) source = false) ∧
    (∀ (source bytes : List Nat) (fp : Nat × Nat) (buf : DMatrix)
      (rest : List Nat), decodeCacheFile bytes = some (fp, buf, rest) →
      fp ≠ fingerprint source → hash_binary (some bytes) source = false) ∧
    (∀ (source : List Nat) (buf : DMatrix) (k : Nat), buf.wf →
      k < (serialize_buffer (fingerprint source) buf).length →
      hash_binary
        (some ((serialize_buffer (fingerprint source) buf).take k)) source
        = false) := by
  refine ⟨?_, fun _ => rfl, ?_, ?_, ?_⟩
  · intro source buf hwf
    have hf1 : (fingerprint source).1 < 2 ^ 64 := polyHash_lt 0 source
    have hf2 : (fingerprint source).2 < 2 ^ 64 :=
      polyHash_lt source.length source
    simp [hash_binary, decodeCacheFile_serialize _ buf hf1 hf2 hwf]
  · intro source bytes h
    simp [hash_binary, h]
  · intro source bytes fp buf rest h hne
    simp [hash_binary, h, hne]
  · intro source buf k hwf hk
    have hf1 : (fingerprint source).1 < 2 ^ 64 := polyHash_lt 0 source
    have hf2 : (fingerprint source).2 < 2 ^ 64 :=
      polyHash_lt source.length source
    have ht := decodeCacheFile_truncated (fingerprint source) buf k
      hf1 hf2 hwf hk
    simp [hash_binary, ht]

/-- Witness for C8: a freshly stored artifact for a concrete two-byte
source validates against that source. -/
theorem claim_C8_witness :
    hash_binary
      (some (serialize_buffer (fingerprint [1, 2]) [⟨5, [⟨1, 2, 3⟩]⟩]))
      [1, 2] = true :=
  claim_C8.1 [1, 2] [⟨5, [⟨1, 2, 3⟩]⟩] (by decide)

end XLearn
